import Mathlib

/-!
Verification of the package-loading / dependency-resolution / caching engine
described in `spec.md` of this repository.  The engine itself (the JavaScript
load coordinator) is not present under `src/`; only its test suite
(`src/src/tests/test_package_loading.py`) is.  Following the spec, the
coordinator, resolver, expander, fetcher and installer are modelled below as a
shallow embedding: pure state-passing functions over an explicit
`LoaderState`, with the asynchronous suspension points of the real system
(fetch + install) represented by explicit completion steps
(`completeAllOk` / `completeFail`).  Observable log lines are modelled by a
structured `LogEvent` type together with `render`, which produces the exact
wording required by the spec and pinned by the tests.
-/

namespace PackageLoader

instance {α β : Type} [DecidableEq α] [DecidableEq β] :
    DecidableEq (Except α β) := fun a b =>
  match a, b with
  | .ok x, .ok y =>
    if h : x = y then isTrue (by rw [h])
    else isFalse (fun hc => h (by injection hc))
  | .error x, .error y =>
    if h : x = y then isTrue (by rw [h])
    else isFalse (fun hc => h (by injection hc))
  | .ok _, .error _ => isFalse (fun hc => Except.noConfusion hc)
  | .error _, .ok _ => isFalse (fun hc => Except.noConfusion hc)

/-- Modelled from the spec: the channel tag recorded for packages loaded from
the bundled index.  The literal string is pinned by
`test_list_loaded_urls` and `test_load_twice` in
`src/src/tests/test_package_loading.py`: the queryable mapping stores
`"default channel"` and the idempotent-reload log reads
`"<name> already loaded from default channel"`. -/
def DEFAULT_CHANNEL : String := "default channel"

/-- Modelled from the spec (§3): immutable per-package metadata from the
bundled package index. -/
structure PackageMeta where
  name : String
  fileName : String
  depends : List String
deriving Repr, DecidableEq

/-- Modelled from the spec (§2): the static package index, loaded once. -/
abbrev PackageIndex := List PackageMeta

/-- Character-wise ASCII lower-casing over the string's character list.
Equivalent to the runtime's case folding on the package names the index
carries; recursing structurally on the character list keeps every
definition below evaluable by the kernel. -/
def lowerStr (s : String) : String := ⟨s.data.map Char.toLower⟩

/-- Whether the string ends in the recognized archive suffix `.js`. -/
def hasJsSuffix (s : String) : Bool :=
  s.data.reverse.take 3 == ['s', 'j', '.']

/-- The last `/`-separated segment of a URI (the whole string when it has
no slash). -/
def lastSegment (s : String) : String :=
  ⟨(s.data.reverse.takeWhile (fun c => c != '/')).reverse⟩

/-- Drop the final three characters (the `.js` suffix). -/
def dropLast3 (s : String) : String :=
  ⟨(s.data.reverse.drop 3).reverse⟩

/-- Case-insensitive index lookup (spec §4.1): the key is expected to be
already lower-cased by the caller; index entries are matched on the
lower-cased canonical name. -/
def lookupIndex (idx : PackageIndex) (key : String) : Option PackageMeta :=
  idx.find? (fun m => lowerStr m.name == key)

/-- Total length of the dependency lists of the index entries whose names
are not yet in the visited set: together with the worklist length this
bounds the number of traversal steps the expander can still take, because
an index entry's dependencies are pushed at most once (the visited-set
guard of spec §4.2). -/
def pendingDeps (idx : PackageIndex) (visited : List String) : Nat :=
  ((idx.filter (fun m => !(visited.contains (lowerStr m.name)))).map
    (fun m => m.depends.length)).sum

/-- The step potential of an expander configuration. -/
def phi (idx : PackageIndex) (work visited : List String) : Nat :=
  work.length + pendingDeps idx visited

/-- Fuel that strictly dominates the initial potential of a traversal. -/
def expandFuel (idx : PackageIndex) (seeds : List String) : Nat :=
  seeds.length + pendingDeps idx [] + 1

/-- Modelled from the spec (§4.2): the dependency expander.  Depth-first
worklist traversal of the index's dependency edges with a visited-set guard:
a name already visited is silently skipped (cycle tolerance), a name absent
from the index is kept as an ad-hoc leaf requirement, and dependency names
are lower-cased before being pushed.  The fuel argument is an upper bound on
the number of steps; `expandGo_fuel_stable` proves any fuel above the
potential `phi` yields the same result, so the traversal genuinely
terminates and the guard, not the fuel, stops it. -/
def expandGo (idx : PackageIndex) : Nat → List String → List String → List String
  | 0, _, visited => visited.reverse
  | _ + 1, [], visited => visited.reverse
  | fuel + 1, n :: rest, visited =>
    if visited.contains n then
      expandGo idx fuel rest visited
    else
      match lookupIndex idx n with
      | some m => expandGo idx fuel (m.depends.map lowerStr ++ rest) (n :: visited)
      | none => expandGo idx fuel rest (n :: visited)

/-- The dependency closure of a list of (already lower-cased) seed names. -/
def expand (idx : PackageIndex) (seeds : List String) : List String :=
  expandGo idx (expandFuel idx seeds) seeds []

theorem sum_map_filter_le_of_imp {α : Type} (f : α → Nat) (p q : α → Bool)
    (h : ∀ a, q a = true → p a = true) :
    ∀ l : List α, ((l.filter q).map f).sum ≤ ((l.filter p).map f).sum := by
  intro l
  induction l with
  | nil => simp
  | cons a t ih =>
    by_cases hq : q a = true
    · rw [List.filter_cons_of_pos hq, List.filter_cons_of_pos (h a hq)]
      simpa using Nat.add_le_add_left ih (f a)
    · rw [List.filter_cons_of_neg hq]
      by_cases hp : p a = true
      · rw [List.filter_cons_of_pos hp]
        simp only [List.map_cons, List.sum_cons]
        exact Nat.le_trans ih (Nat.le_add_left _ _)
      · rw [List.filter_cons_of_neg hp]
        exact ih

theorem contains_cons_imp (visited : List String) (n : String) :
    ∀ a : String, ((n :: visited).contains a) = false →
      (visited.contains a) = false := by
  intro a ha
  simp only [List.contains_cons, Bool.or_eq_false_iff] at ha
  exact ha.2

theorem pendingDeps_cons_le (idx : PackageIndex) (visited : List String)
    (n : String) :
    pendingDeps idx (n :: visited) ≤ pendingDeps idx visited := by
  apply sum_map_filter_le_of_imp
  intro a ha
  simp only [Bool.not_eq_true'] at ha ⊢
  exact contains_cons_imp visited n _ ha

theorem pendingDeps_cons_eq (idx : PackageIndex) (visited : List String)
    (n : String) (hnone : lookupIndex idx n = none) :
    pendingDeps idx (n :: visited) = pendingDeps idx visited := by
  unfold pendingDeps
  congr 2
  apply List.filter_congr
  intro m hm
  have hne : (lowerStr m.name == n) = false := by
    have := List.find?_eq_none.mp hnone m hm
    simpa using this
  simp only [List.contains_cons, hne, Bool.false_or]

theorem pendingDeps_visit (idx : PackageIndex) (visited : List String)
    (n : String) (m : PackageMeta)
    (hfind : lookupIndex idx n = some m) (hnv : visited.contains n = false) :
    m.depends.length + pendingDeps idx (n :: visited) ≤
      pendingDeps idx visited := by
  induction idx with
  | nil => simp [lookupIndex] at hfind
  | cons e t ih =>
    unfold lookupIndex at hfind ih
    cases he : lowerStr e.name == n
    case true =>
      simp only [List.find?_cons, he] at hfind
      have hem : e = m := by injection hfind
      subst hem
      have hen : lowerStr e.name = n := by simpa using he
      have hdrop : ((n :: visited).contains n) = true := by
        simp [List.contains_cons]
      have hstep := pendingDeps_cons_le t visited n
      unfold pendingDeps at hstep ⊢
      simp only [List.filter_cons, hen, hnv, hdrop]
      simp only [Bool.not_false, Bool.not_true, if_true, Bool.false_eq_true,
        if_false, List.map_cons, List.sum_cons]
      omega
    case false =>
      simp only [List.find?_cons, he] at hfind
      have hkeeps : ((n :: visited).contains (lowerStr e.name)) =
          (visited.contains (lowerStr e.name)) := by
        simp only [List.contains_cons, he, Bool.false_or]
      have hih := ih hfind
      unfold pendingDeps at hih ⊢
      simp only [List.filter_cons, hkeeps]
      cases hk : visited.contains (lowerStr e.name)
      case true =>
        simp only [hk, Bool.not_true, Bool.false_eq_true, if_false]
        omega
      case false =>
        simp only [hk, Bool.not_false, if_true, List.map_cons, List.sum_cons]
        omega

theorem expandGo_fuel_stable (idx : PackageIndex) :
    ∀ f₁ f₂ work visited, phi idx work visited < f₁ →
      phi idx work visited < f₂ →
      expandGo idx f₁ work visited = expandGo idx f₂ work visited := by
  intro f₁
  induction f₁ with
  | zero => intro f₂ w v h1 _; omega
  | succ f ih =>
    intro f₂ work visited h1 h2
    cases f₂ with
    | zero => omega
    | succ g =>
      cases work with
      | nil => rfl
      | cons n rest =>
        simp only [expandGo]
        have hphi : phi idx (n :: rest) visited =
            rest.length + 1 + pendingDeps idx visited := by
          simp [phi, Nat.add_comm, Nat.add_assoc, Nat.add_left_comm]
        by_cases hc : visited.contains n
        · simp only [hc, if_true]
          apply ih
          · simp only [phi] at *; omega
          · simp only [phi] at *; omega
        · simp only [hc, Bool.false_eq_true, if_false]
          cases hfind : lookupIndex idx n with
          | none =>
            have heq := pendingDeps_cons_eq idx visited n hfind
            apply ih
            · simp only [phi] at *; omega
            · simp only [phi] at *; omega
          | some m =>
            have hle := pendingDeps_visit idx visited n m hfind
              (by revert hc; cases visited.contains n <;> simp)
            apply ih
            · simp only [phi, List.length_append, List.length_map] at *; omega
            · simp only [phi, List.length_append, List.length_map] at *; omega

theorem expand_fuel_independent (idx : PackageIndex) (seeds : List String)
    (f : Nat) (hf : expandFuel idx seeds ≤ f) :
    expandGo idx f seeds [] = expand idx seeds := by
  unfold expand
  apply expandGo_fuel_stable
  · unfold expandFuel at hf
    simp only [phi]
    omega
  · unfold expandFuel
    simp only [phi]
    omega

theorem expandGo_nodup (idx : PackageIndex) :
    ∀ fuel work visited, visited.Nodup →
      (expandGo idx fuel work visited).Nodup := by
  intro fuel
  induction fuel with
  | zero =>
    intro w v h
    simpa [expandGo, List.nodup_reverse] using h
  | succ f ih =>
    intro w v h
    cases w with
    | nil => simpa [expandGo, List.nodup_reverse] using h
    | cons n rest =>
      simp only [expandGo]
      by_cases hc : v.contains n
      · simp only [hc, if_true]
        exact ih _ _ h
      · have hnm : n ∉ v := by
          revert hc; cases hcc : v.contains n
          · intro _; simpa using hcc
          · intro hcon; exact absurd rfl hcon
        simp only [hc, Bool.false_eq_true, if_false]
        cases hfind : lookupIndex idx n with
        | none => exact ih _ _ (List.nodup_cons.mpr ⟨hnm, h⟩)
        | some m => exact ih _ _ (List.nodup_cons.mpr ⟨hnm, h⟩)

theorem expand_nodup (idx : PackageIndex) (seeds : List String) :
    (expand idx seeds).Nodup :=
  expandGo_nodup idx _ seeds [] List.nodup_nil

/-- Modelled from the spec (§4.1): characters admissible in a bare package
name (the recognized bare-name form); anything else must be a URI ending in
the recognized archive suffix or it is an unknown package. -/
def isValidNameChar (c : Char) : Bool :=
  c.isAlphanum || c = '_' || c = '-'

/-- A request string is a bare package name when non-empty and made only of
name characters (so `wrong name+$` and `tcp://some_url` are not). -/
def isBareName (s : String) : Bool :=
  !s.data.isEmpty && s.data.all isValidNameChar

/-- The file stem of a URI request: the last path segment without the
trailing `.js` archive suffix. -/
def fileStem (uri : String) : String :=
  dropLast3 (lastSegment uri)

/-- Modelled from the spec (§4.1, §6): the source resolver.
A request ending in the recognized archive suffix `.js` resolves to the
lower-cased file stem as canonical name (matching the index case-insensitively
recovers exactly this string) with the literal URI as channel; a bare name is
looked up case-insensitively in the index and resolves to the default
channel; anything else fails with the exact message
quoted `No known package with name` followed by the literal request. -/
def resolveRequest (idx : PackageIndex) (req : String) :
    Except String (String × String) :=
  if hasJsSuffix req then
    .ok (lowerStr (fileStem req), req)
  else if isBareName req then
    match lookupIndex idx (lowerStr req) with
    | some m => .ok (lowerStr m.name, DEFAULT_CHANNEL)
    | none => .error ("No known package with name '" ++ req ++ "'")
  else
    .error ("No known package with name '" ++ req ++ "'")

/-- Resolve a whole request batch; the first unresolvable request fails the
batch before any shared state is touched (spec §6, §7). -/
def resolveAll (idx : PackageIndex) :
    List String → Except String (List (String × String))
  | [] => .ok []
  | r :: rs => do
    let p ← resolveRequest idx r
    let ps ← resolveAll idx rs
    .ok (p :: ps)

/-- Modelled from the spec (§6): the observable logging events, with exact
wording produced by `render`. -/
inductive LogEvent where
  | loadingFrom (name url : String)
  | alreadyLoaded (name channel : String)
  | loadingSame (name urlA urlB : String)
  | uriMismatch (name : String)
  | loadError (name msg : String)
  | skippingUnknown (name : String)
deriving Repr, DecidableEq

/-- The exact log line wording of each event (spec §6). -/
def render : LogEvent → String
  | .loadingFrom n u => "Loading " ++ n ++ " from " ++ u
  | .alreadyLoaded n c => n ++ " already loaded from " ++ c
  | .loadingSame n a b => "Loading same package " ++ n ++ " from " ++ a ++ " and " ++ b
  | .uriMismatch n => "URI mismatch, attempting to load package " ++ n
  | .loadError n m => "The following error occurred while loading " ++ n ++ ": " ++ m
  | .skippingUnknown n => "Skipping unknown package " ++ n

/-- Modelled from the spec (§4.1): in-batch deduplication of resolved
requests.  A later request for an already-seen canonical name with the same
channel is an idempotent re-request (dropped silently); with a differing
channel it is a source conflict: the `Loading same package` event is logged
with the later channel first, and the first-seen channel stays
authoritative. -/
def dedupeGo :
    List (String × String) → List LogEvent → List (String × String) →
    List (String × String) × List LogEvent
  | acc, log, [] => (acc, log)
  | acc, log, (n, ch) :: rest =>
    match List.lookup n acc with
    | some ch0 =>
      if ch = ch0 then dedupeGo acc log rest
      else dedupeGo acc (log ++ [.loadingSame n ch ch0]) rest
    | none => dedupeGo (acc ++ [(n, ch)]) log rest

/-- Modelled from the spec (§3): one in-flight fetch+install attempt, shared
by every concurrent caller waiting on the same name. -/
structure InFlightEntry where
  name : String
  channel : String
  waiters : Nat
deriving Repr, DecidableEq

/-- Modelled from the spec (§3, §4.3): the load coordinator's single shared
state: the loaded mapping (name to channel), the in-flight set, and the log
of observable events. -/
structure LoaderState where
  loaded : List (String × String)
  inFlight : List InFlightEntry
  log : List LogEvent
deriving Repr, DecidableEq

/-- The initial state: nothing loaded, nothing in flight. -/
def initState : LoaderState := ⟨[], [], []⟩

/-- Names present in the queryable loaded mapping. -/
def loadedNames (s : LoaderState) : List String := s.loaded.map Prod.fst

/-- Names currently in flight. -/
def inFlightNames (s : LoaderState) : List String :=
  s.inFlight.map (fun e => e.name)

/-- Modelled from the spec (§4.1): the fetch URL of one package: the literal
URI for an explicit channel, or the index's default location (kept abstract
as a fixed base path) joined with the index file name for the default
channel. -/
def fetchUrl (idx : PackageIndex) (n ch : String) : String :=
  if ch = DEFAULT_CHANNEL then
    match lookupIndex idx n with
    | some m => "indexURL/" ++ m.fileName
    | none => "indexURL/" ++ n ++ ".js"
  else ch

/-- Modelled from the spec (§4.3 step 3): the atomic admission step of the
load coordinator for one closure entry `(n, ch)`:
already-loaded names are a no-op (`already loaded` when re-requested with
the recorded or the default channel, `URI mismatch` otherwise, never a
re-fetch); in-flight names attach the caller as an additional waiter on the
existing attempt (logging the source conflict when the channels differ);
fresh names transition to in-flight with a single `Loading ... from` fetch
event. -/
def processEntry (idx : PackageIndex) (s : LoaderState) (n ch : String) :
    LoaderState :=
  match List.lookup n s.loaded with
  | some c =>
    if ch = c ∨ ch = DEFAULT_CHANNEL then
      { s with log := s.log ++ [.alreadyLoaded n c] }
    else
      { s with log := s.log ++ [.uriMismatch n] }
  | none =>
    match s.inFlight.find? (fun e => e.name == n) with
    | some e =>
      { s with
        log := if ch = e.channel then s.log
               else s.log ++ [.loadingSame n ch e.channel],
        inFlight := s.inFlight.map
          (fun e' => if e'.name == n then
            { e' with waiters := e'.waiters + 1 } else e') }
    | none =>
      { s with
        inFlight := s.inFlight ++ [⟨n, ch, 1⟩],
        log := s.log ++ [.loadingFrom n (fetchUrl idx n ch)] }

/-- The closure entries of a deduplicated request batch: each closure name
paired with its requested channel, dependency-only names defaulting to the
default channel (spec §4.3 step 2). -/
def closureEntries (idx : PackageIndex) (uniq : List (String × String)) :
    List (String × String) :=
  (expand idx (uniq.map Prod.fst)).map
    (fun n => (n, (List.lookup n uniq).getD DEFAULT_CHANNEL))

/-- Modelled from the spec (§4.3 steps 1-4): the non-suspending admission
phase of one `loadPackages` call: resolve, dedupe (with conflict logs),
expand to the closure, and admit every closure entry atomically.  An
unresolvable request fails the whole call before touching shared state. -/
def loadPhaseA (idx : PackageIndex) (reqs : List String) (s : LoaderState) :
    Except String LoaderState := do
  let resolved ← resolveAll idx reqs
  let (uniq, clog) := dedupeGo [] [] resolved
  let s1 : LoaderState := { s with log := s.log ++ clog }
  .ok ((closureEntries idx uniq).foldl
    (fun st p => processEntry idx st p.1 p.2) s1)

/-- Modelled from the spec (§4.3 step 5): successful completion of every
pending fetch+install unit: each in-flight name moves atomically to the
loaded mapping under its committed channel. -/
def completeAllOk (s : LoaderState) : LoaderState :=
  { s with
    loaded := s.loaded ++ s.inFlight.map (fun e => (e.name, e.channel)),
    inFlight := [] }

/-- Modelled from the spec (§4.3 step 6): failure of the unit for name `n`:
the name atomically leaves the in-flight set (reverting to not-loaded, no
partial entry), the error is logged, and the loaded mapping is untouched. -/
def completeFail (s : LoaderState) (n msg : String) : LoaderState :=
  match s.inFlight.find? (fun e => e.name == n) with
  | some _ =>
    { s with
      inFlight := s.inFlight.filter (fun e => e.name != n),
      log := s.log ++ [.loadError n msg] }
  | none => s

/-- One whole successful `loadPackages` call: admission followed by
successful completion of all admitted units. -/
def loadPackages (idx : PackageIndex) (reqs : List String) (s : LoaderState) :
    Except String LoaderState :=
  (loadPhaseA idx reqs s).map completeAllOk

/-- Iterated admission: `k` successive admission phases for the single request
`r` (the shape of concurrent callers joining an in-flight attempt: each call
runs its atomic admission before any completion happens). -/
def loadCalls (idx : PackageIndex) (r : String) :
    Nat → LoaderState → Except String LoaderState
  | 0, s => .ok s
  | k + 1, s => do
    let s' ← loadPhaseA idx [r] s
    loadCalls idx r k s'

/-- Outcome broadcast of the single attempt for name `n`: every waiter
registered on the attempt receives the same outcome (spec §5). -/
def attemptOutcomes (s : LoaderState) (n : String) (ok : Bool) : List Bool :=
  match s.inFlight.find? (fun e => e.name == n) with
  | some e => List.replicate e.waiters ok
  | none => []

/-- The canonical-name closure a request batch expands to (recomputing the
resolution pipeline of `loadPhaseA`; empty when resolution fails). -/
def batchClosure (idx : PackageIndex) (reqs : List String) : List String :=
  match resolveAll idx reqs with
  | .error _ => []
  | .ok resolved => expand idx ((dedupeGo [] [] resolved).1.map Prod.fst)

/-- Number of fetch events (`Loading <n> from ...`) for name `n`. -/
def countLoadingFrom (log : List LogEvent) (n : String) : Nat :=
  (log.filter (fun e => match e with
    | .loadingFrom m _ => m == n
    | _ => false)).length

/-- Number of source-conflict events (`Loading same package <n> ...`). -/
def countLoadingSame (log : List LogEvent) (n : String) : Nat :=
  (log.filter (fun e => match e with
    | .loadingSame m _ _ => m == n
    | _ => false)).length

/-- Number of occurrences of one exact event. -/
def countEvent (log : List LogEvent) (e : LogEvent) : Nat :=
  (log.filter (fun x => x == e)).length

/-- Modelled from the spec (§4.5, §6): an archive handed to the ad-hoc
install entry point, abstracted to the package name its top-level directory
carries (unpacking itself is the virtual-filesystem collaborator's job). -/
structure Archive where
  topLevelName : String
deriving Repr, DecidableEq

/-- Modelled from the spec (§4.5): format-hint normalization with aliases
(`tgz` = `tar.gz` = `.tar.gz` = `gztar`), at least one tar-based and one
zip-based layout; unknown hints are rejected. -/
def normalizeFormat (fmt : String) : Option String :=
  let f : String := match fmt.data with
    | '.' :: rest => ⟨rest⟩
    | _ => fmt
  if f = "gztar" || f = "tgz" || f = "tar.gz" then some "tar.gz"
  else if f = "zip" then some "zip"
  else if f = "tar" then some "tar"
  else none

/-- Modelled from the spec (§6): the archive-install entry point
`unpackArchive(bytes, formatHint)`, independent of the index-driven path; a
recognized format installs the archive and registers the installed name in
the shared loaded state, an unrecognized hint fails without touching it. -/
def unpackArchive (s : LoaderState) (a : Archive) (fmt : String) :
    Except String LoaderState :=
  match normalizeFormat fmt with
  | none => .error ("Unsupported format: " ++ fmt)
  | some _ =>
    .ok { s with loaded := s.loaded ++ [(a.topLevelName, DEFAULT_CHANNEL)] }

/-- Modelled from the spec: the network fetch layer is an external
collaborator (§4.4) absent from `src/`; a URL is modelled structurally as a
server part and a path part. -/
structure Url where
  server : String
  path : String
deriving Repr, DecidableEq

/-- Modelled from the spec and `test_load_from_url`: the resources fetched
for one package loaded from an explicit URL: the loader script at the URL
itself and the companion data archive at the same path with `.js` replaced
by `.data`, both on the request's server. -/
def packageResources (u : Url) : List Url :=
  [u, { u with path := dropLast3 u.path ++ ".data" }]

/-- A one-package index used by concrete instances: `pytz`, no dependencies,
as in the retry and idempotence tests. -/
def pytzIdx : PackageIndex := [⟨"pytz", "pytz.js", []⟩]

/-- A one-package index mirroring `test_list_loaded_urls`. -/
def pyparsingIdx : PackageIndex := [⟨"pyparsing", "pyparsing.js", []⟩]

/-- A two-package index where `a` depends on `b`, for the dependency-closure
scenario of `test_load_packages_multiple`. -/
def abIdx : PackageIndex := [⟨"a", "a.js", ["b"]⟩, ⟨"b", "b.js", []⟩]

/-- A cyclic dependency graph: `a` and `b` depend on each other. -/
def cyclicIdx : PackageIndex := [⟨"a", "a.js", ["b"]⟩, ⟨"b", "b.js", ["a"]⟩]

theorem beq_comm_false {a b : String} (h : (a == b) = false) :
    (b == a) = false := by
  simp only [beq_eq_false_iff_ne] at h ⊢
  exact fun e => h e.symm

theorem lookup_some_mem {β : Type} (n : String) (l : List (String × β))
    (c : β) (h : List.lookup n l = some c) : n ∈ l.map Prod.fst := by
  induction l with
  | nil => simp [List.lookup] at h
  | cons p t ih =>
    obtain ⟨k, v⟩ := p
    cases hk : n == k
    case true =>
      have : n = k := by simpa using hk
      simp [this]
    case false =>
      simp only [List.lookup_cons, hk] at h
      simpa using Or.inr (ih h)

theorem lookup_append_of_none {β : Type} (n : String)
    (l1 l2 : List (String × β)) (h : List.lookup n l1 = none) :
    List.lookup n (l1 ++ l2) = List.lookup n l2 := by
  induction l1 with
  | nil => simp
  | cons p t ih =>
    obtain ⟨k, v⟩ := p
    cases hk : n == k
    case true =>
      simp only [List.lookup_cons, hk] at h
      exact absurd h (by simp)
    case false =>
      simp only [List.lookup_cons, hk] at h
      simpa only [List.cons_append, List.lookup_cons, hk] using ih h

theorem find?_all_false {α : Type} (p : α → Bool) (l : List α)
    (h : l.find? p = none) : ∀ x ∈ l, p x = false := by
  intro x hx
  have := List.find?_eq_none.mp h x hx
  revert this
  cases p x <;> simp

theorem lookup_pairs_of_find?_none (n : String) (l : List InFlightEntry)
    (h : l.find? (fun x => x.name == n) = none) :
    List.lookup n (l.map (fun e => (e.name, e.channel))) = none := by
  have hall := find?_all_false _ l h
  induction l with
  | nil => simp [List.lookup]
  | cons e t ih =>
    have he : (n == e.name) = false := beq_comm_false (hall e (by simp))
    simp only [List.map_cons, List.lookup_cons, he]
    exact ih (by
      rw [List.find?_cons_of_neg] at h
      · exact h
      · simp [hall e (by simp)])
      (fun x hx => hall x (by simp [hx]))

theorem bump_map_id (l : List InFlightEntry) (n : String)
    (h : ∀ e ∈ l, (e.name == n) = false) :
    l.map (fun x => if x.name == n then
      { x with waiters := x.waiters + 1 } else x) = l := by
  induction l with
  | nil => rfl
  | cons e t ih =>
    simp only [List.map_cons, h e (by simp), Bool.false_eq_true, if_false]
    rw [ih (fun x hx => h x (by simp [hx]))]

theorem processEntry_fresh (idx : PackageIndex) (s : LoaderState)
    (n ch : String)
    (hl : List.lookup n s.loaded = none)
    (hf : s.inFlight.find? (fun x => x.name == n) = none) :
    processEntry idx s n ch =
      { s with inFlight := s.inFlight ++ [⟨n, ch, 1⟩],
               log := s.log ++ [.loadingFrom n (fetchUrl idx n ch)] } := by
  simp only [processEntry, hl, hf]

theorem processEntry_attach (idx : PackageIndex) (s : LoaderState)
    (n ch : String) (e : InFlightEntry)
    (hl : List.lookup n s.loaded = none)
    (hf : s.inFlight.find? (fun x => x.name == n) = some e) :
    processEntry idx s n ch =
      { s with
        log := if ch = e.channel then s.log
               else s.log ++ [.loadingSame n ch e.channel],
        inFlight := s.inFlight.map (fun x => if x.name == n then
          { x with waiters := x.waiters + 1 } else x) } := by
  simp only [processEntry, hl, hf]

theorem processEntry_already (idx : PackageIndex) (s : LoaderState)
    (n ch c : String)
    (hl : List.lookup n s.loaded = some c)
    (hch : ch = c ∨ ch = DEFAULT_CHANNEL) :
    processEntry idx s n ch =
      { s with log := s.log ++ [.alreadyLoaded n c] } := by
  simp only [processEntry, hl, if_pos hch]

theorem processEntry_mismatch (idx : PackageIndex) (s : LoaderState)
    (n ch c : String)
    (hl : List.lookup n s.loaded = some c)
    (hch : ¬(ch = c ∨ ch = DEFAULT_CHANNEL)) :
    processEntry idx s n ch =
      { s with log := s.log ++ [.uriMismatch n] } := by
  simp only [processEntry, hl, if_neg hch]

theorem loaded_processEntry (idx : PackageIndex) (st : LoaderState)
    (n ch : String) :
    (processEntry idx st n ch).loaded = st.loaded := by
  unfold processEntry
  split
  · split <;> rfl
  · split <;> rfl

theorem countLoadingFrom_append (L1 L2 : List LogEvent) (n : String) :
    countLoadingFrom (L1 ++ L2) n =
      countLoadingFrom L1 n + countLoadingFrom L2 n := by
  simp [countLoadingFrom, List.filter_append]

theorem countLoadingSame_append (L1 L2 : List LogEvent) (n : String) :
    countLoadingSame (L1 ++ L2) n =
      countLoadingSame L1 n + countLoadingSame L2 n := by
  simp [countLoadingSame, List.filter_append]

theorem countEvent_append (L1 L2 : List LogEvent) (e : LogEvent) :
    countEvent (L1 ++ L2) e = countEvent L1 e + countEvent L2 e := by
  simp [countEvent, List.filter_append]

theorem loadPhaseA_singleton (idx : PackageIndex) (r n ch : String)
    (s : LoaderState)
    (hres : resolveRequest idx r = .ok (n, ch))
    (hexp : expand idx [n] = [n]) :
    loadPhaseA idx [r] s = .ok (processEntry idx s n ch) := by
  obtain ⟨ld, inf, lg⟩ := s
  simp [loadPhaseA, resolveAll, hres, dedupeGo, closureEntries, hexp,
    List.lookup, bind, Except.bind]

/-- C9: the dependency expander terminates on every input, including cyclic
dependency graphs: its result is stable under any fuel at least the declared
bound (so the visited-set guard, not the step bound, is what stops the
traversal), every name appears at most once in the result (each name is
visited at most once; a revisited name is silently skipped as already
satisfied), and on a concrete cyclic two-package index the expansion
returns normally with each name exactly once, raising no error. -/
theorem expander_total_on_cycles :
    (∀ (idx : PackageIndex) (seeds : List String), (expand idx seeds).Nodup) ∧
    (∀ (idx : PackageIndex) (seeds : List String) (f : Nat),
      expandFuel idx seeds ≤ f → expandGo idx f seeds [] = expand idx seeds) ∧
    expand cyclicIdx ["a"] = ["a", "b"] :=
  ⟨fun idx seeds => expand_nodup idx seeds,
   fun idx seeds f hf => expand_fuel_independent idx seeds f hf,
   by decide⟩

/-- C9 witness: the fuel-stability clause instantiated on the cyclic index
with a fuel well above the bound. -/
theorem expander_total_on_cycles_witness :
    expandGo cyclicIdx 12 ["a"] [] = expand cyclicIdx ["a"] :=
  expander_total_on_cycles.2.1 cyclicIdx ["a"] 12 (by decide)

/-- C3: a request that is neither in URI form (no `.js` suffix) nor a known
bare name (invalid name shape, or a valid shape absent from the index) fails
the whole call with the exact message `No known package with name '<name>'`
carrying the literal request string, uniformly in the shared state; no
successor state is produced, so the shared loaded/in-flight state is
unchanged (state changes only flow through a returned ok state). -/
theorem unknown_name_rejection (idx : PackageIndex) (r : String)
    (rest : List String) (s : LoaderState)
    (hjs : hasJsSuffix r = false)
    (hun : isBareName r = false ∨ lookupIndex idx (lowerStr r) = none) :
    loadPhaseA idx (r :: rest) s =
      .error ("No known package with name '" ++ r ++ "'") := by
  have hres : resolveRequest idx r =
      .error ("No known package with name '" ++ r ++ "'") := by
    rcases hun with h | h
    · simp [resolveRequest, hjs, h]
    · by_cases hb : isBareName r = true
      · simp [resolveRequest, hjs, hb, h]
      · simp [resolveRequest, hjs, hb]
  simp [loadPhaseA, resolveAll, hres, bind, Except.bind]

/-- C3 witness: the unsupported-scheme request of
`test_invalid_package_name` is rejected with the exact message and the
state-independent error. -/
theorem unknown_name_rejection_witness :
    loadPhaseA pytzIdx ["tcp://some_url"] initState =
      .error ("No known package with name '" ++ "tcp://some_url" ++ "'") :=
  unknown_name_rejection pytzIdx "tcp://some_url" [] initState
    (by decide) (Or.inl (by decide))

/-- C8: every successful call of the archive-install entry point
`unpackArchive` registers the installed package's name in the shared loaded
state, making it visible in the queryable loaded-package mapping. -/
theorem unpack_archive_registers_name (s : LoaderState) (a : Archive)
    (fmt : String) (s' : LoaderState)
    (h : unpackArchive s a fmt = .ok s') :
    a.topLevelName ∈ loadedNames s' := by
  unfold unpackArchive at h
  cases hn : normalizeFormat fmt with
  | none =>
    rw [hn] at h
    exact absurd h (by simp)
  | some f =>
    rw [hn] at h
    injection h with h'
    subst h'
    simp [loadedNames]

/-- C8 witness: installing a `test_pkg` archive with the `tgz` format alias
registers `test_pkg` in the loaded mapping. -/
theorem unpack_archive_registers_name_witness :
    ∃ s', unpackArchive initState ⟨"test_pkg"⟩ "tgz" = .ok s' ∧
      "test_pkg" ∈ loadedNames s' :=
  ⟨_, rfl, unpack_archive_registers_name initState ⟨"test_pkg"⟩ "tgz" _ rfl⟩

theorem filter_keep_of_ne (l : List InFlightEntry) (n : String)
    (h : ∀ e ∈ l, (e.name == n) = false) :
    l.filter (fun e => e.name != n) = l := by
  induction l with
  | nil => rfl
  | cons e t ih =>
    have he : (e.name != n) = true := by
      simp [bne, h e (by simp)]
    rw [show List.filter (fun x => x.name != n) (e :: t) =
          e :: List.filter (fun x => x.name != n) t from
        List.filter_cons_of_pos he,
      ih (fun x hx => h x (by simp [hx]))]

theorem loadPackages_fresh (idx : PackageIndex) (r n ch : String)
    (s : LoaderState)
    (hres : resolveRequest idx r = .ok (n, ch))
    (hexp : expand idx [n] = [n])
    (hl : List.lookup n s.loaded = none)
    (hf : s.inFlight.find? (fun x => x.name == n) = none) :
    loadPackages idx [r] s = .ok
      { loaded := s.loaded ++
          (s.inFlight.map (fun e => (e.name, e.channel)) ++ [(n, ch)]),
        inFlight := [],
        log := s.log ++ [.loadingFrom n (fetchUrl idx n ch)] } := by
  unfold loadPackages
  rw [loadPhaseA_singleton idx r n ch s hres hexp,
      processEntry_fresh idx s n ch hl hf]
  simp [Except.map, completeAllOk]

theorem lookup_fresh_loaded (n ch : String) (s : LoaderState)
    (hl : List.lookup n s.loaded = none)
    (hf : s.inFlight.find? (fun x => x.name == n) = none) :
    List.lookup n (s.loaded ++
      (s.inFlight.map (fun e => (e.name, e.channel)) ++ [(n, ch)])) =
      some ch := by
  rw [lookup_append_of_none _ _ _ hl,
      lookup_append_of_none _ _ _ (lookup_pairs_of_find?_none n _ hf)]
  simp [List.lookup]

/-- C7 counterexample: after loading `pyparsing` by bare name from the
bundled index (the scenario of `test_list_loaded_urls`), the queryable
loaded-package mapping records the channel string `"default channel"`, not
`"default"` as the claim states. -/
theorem loaded_channel_not_plain_default :
    (loadPackages pyparsingIdx ["pyparsing"] initState).toOption.map
      (fun s => List.lookup "pyparsing" s.loaded) =
      some (some "default channel") ∧
    ("default channel" : String) ≠ "default" := by decide

/-- C7 (amended): for every package successfully loaded by bare name from
the bundled index, the queryable read-only loaded-package mapping maps its
canonical name to the channel string `"default channel"`. -/
theorem default_load_records_default_channel (idx : PackageIndex)
    (r n : String) (s : LoaderState)
    (hres : resolveRequest idx r = .ok (n, DEFAULT_CHANNEL))
    (hexp : expand idx [n] = [n])
    (hl : List.lookup n s.loaded = none)
    (hf : s.inFlight.find? (fun x => x.name == n) = none) :
    ∃ s2, loadPackages idx [r] s = .ok s2 ∧
      List.lookup n s2.loaded = some DEFAULT_CHANNEL ∧
      DEFAULT_CHANNEL = "default channel" :=
  ⟨_, loadPackages_fresh idx r n DEFAULT_CHANNEL s hres hexp hl hf,
   lookup_fresh_loaded n DEFAULT_CHANNEL s hl hf, rfl⟩

/-- C7 witness: the amended statement on the concrete `pyparsing` index and
the initial state. -/
theorem default_load_records_default_channel_witness :
    ∃ s2, loadPackages pyparsingIdx ["pyparsing"] initState = .ok s2 ∧
      List.lookup "pyparsing" s2.loaded = some DEFAULT_CHANNEL ∧
      DEFAULT_CHANNEL = "default channel" :=
  default_load_records_default_channel pyparsingIdx "pyparsing" "pyparsing"
    initState (by decide) (by decide) (by decide) (by decide)

/-- C6: loading the same package twice from the same (default) source is
idempotent: across both calls exactly one fetch event for the name occurs,
the second call changes neither the loaded mapping nor the in-flight set (a
no-op against the recorded channel, never a re-fetch), the event
`already loaded` for the name and its recorded channel appears exactly
once, and that event renders as the exact log line
`<name> already loaded from default channel`. -/
theorem idempotent_reload (idx : PackageIndex) (r n : String)
    (s : LoaderState)
    (hres : resolveRequest idx r = .ok (n, DEFAULT_CHANNEL))
    (hexp : expand idx [n] = [n])
    (hl : List.lookup n s.loaded = none)
    (hf : s.inFlight.find? (fun x => x.name == n) = none)
    (hc0 : countLoadingFrom s.log n = 0)
    (ha0 : countEvent s.log (.alreadyLoaded n DEFAULT_CHANNEL) = 0) :
    ∃ s2 s3, loadPackages idx [r] s = .ok s2 ∧
      loadPackages idx [r] s2 = .ok s3 ∧
      countLoadingFrom s3.log n = 1 ∧
      countEvent s3.log (.alreadyLoaded n DEFAULT_CHANNEL) = 1 ∧
      s3.loaded = s2.loaded ∧ s3.inFlight = [] ∧
      render (.alreadyLoaded n DEFAULT_CHANNEL) =
        n ++ " already loaded from default channel" := by
  have h1 := loadPackages_fresh idx r n DEFAULT_CHANNEL s hres hexp hl hf
  have h2l : List.lookup n
      ({ loaded := s.loaded ++
          (s.inFlight.map (fun e => (e.name, e.channel)) ++
            [(n, DEFAULT_CHANNEL)]),
         inFlight := [],
         log := s.log ++ [.loadingFrom n (fetchUrl idx n DEFAULT_CHANNEL)] } :
        LoaderState).loaded = some DEFAULT_CHANNEL :=
    lookup_fresh_loaded n DEFAULT_CHANNEL s hl hf
  have h2 : loadPackages idx [r]
      { loaded := s.loaded ++
          (s.inFlight.map (fun e => (e.name, e.channel)) ++
            [(n, DEFAULT_CHANNEL)]),
        inFlight := [],
        log := s.log ++ [.loadingFrom n (fetchUrl idx n DEFAULT_CHANNEL)] } =
      .ok { loaded := s.loaded ++
              (s.inFlight.map (fun e => (e.name, e.channel)) ++
                [(n, DEFAULT_CHANNEL)]),
            inFlight := [],
            log := (s.log ++
              [.loadingFrom n (fetchUrl idx n DEFAULT_CHANNEL)]) ++
              [.alreadyLoaded n DEFAULT_CHANNEL] } := by
    unfold loadPackages
    rw [loadPhaseA_singleton idx r n DEFAULT_CHANNEL _ hres hexp,
        processEntry_already idx _ n DEFAULT_CHANNEL DEFAULT_CHANNEL h2l
          (Or.inl rfl)]
    simp [Except.map, completeAllOk]
  refine ⟨_, _, h1, h2, ?_, ?_, rfl, rfl, ?_⟩
  · show countLoadingFrom
      ((s.log ++ [.loadingFrom n (fetchUrl idx n DEFAULT_CHANNEL)]) ++
        [.alreadyLoaded n DEFAULT_CHANNEL]) n = 1
    rw [countLoadingFrom_append, countLoadingFrom_append, hc0]
    simp [countLoadingFrom, List.filter]
  · show countEvent
      ((s.log ++ [.loadingFrom n (fetchUrl idx n DEFAULT_CHANNEL)]) ++
        [.alreadyLoaded n DEFAULT_CHANNEL])
      (.alreadyLoaded n DEFAULT_CHANNEL) = 1
    rw [countEvent_append, countEvent_append, ha0]
    have hne : ((LogEvent.loadingFrom n (fetchUrl idx n DEFAULT_CHANNEL)) ==
        LogEvent.alreadyLoaded n DEFAULT_CHANNEL) = false :=
      beq_eq_false_iff_ne.mpr (by simp)
    simp [countEvent, List.filter, hne]
  · have hr : (" already loaded from " ++ DEFAULT_CHANNEL : String) =
        " already loaded from default channel" := by decide
    calc render (.alreadyLoaded n DEFAULT_CHANNEL)
        = n ++ " already loaded from " ++ DEFAULT_CHANNEL := rfl
      _ = n ++ (" already loaded from " ++ DEFAULT_CHANNEL) := by
          rw [String.append_assoc]
      _ = n ++ " already loaded from default channel" := by rw [hr]

/-- C6 witness: the idempotent-reload statement on the concrete `pytz`
index from the initial state. -/
theorem idempotent_reload_witness :
    ∃ s2 s3, loadPackages pytzIdx ["pytz"] initState = .ok s2 ∧
      loadPackages pytzIdx ["pytz"] s2 = .ok s3 ∧
      countLoadingFrom s3.log "pytz" = 1 ∧
      countEvent s3.log (.alreadyLoaded "pytz" DEFAULT_CHANNEL) = 1 ∧
      s3.loaded = s2.loaded ∧ s3.inFlight = [] ∧
      render (.alreadyLoaded "pytz" DEFAULT_CHANNEL) =
        "pytz" ++ " already loaded from default channel" :=
  idempotent_reload pytzIdx "pytz" "pytz" initState (by decide) (by decide)
    (by decide) (by decide) (by decide) (by decide)

/-- C2: a failed load attempt leaves the shared loaded mapping unchanged
(the name stays absent) and removes the name's in-flight entry (no partial
entry remains), logging the load error once; a subsequent independent load
of the same name from a valid default source performs a fresh fetch (a
second fetch event, distinct from the failed attempt's) and succeeds, after
which the name appears in the loaded mapping. -/
theorem failure_reverts_then_retry_succeeds (idx : PackageIndex)
    (u rb n msg : String) (s : LoaderState)
    (hresU : resolveRequest idx u = .ok (n, u))
    (hresB : resolveRequest idx rb = .ok (n, DEFAULT_CHANNEL))
    (hexp : expand idx [n] = [n])
    (hl : List.lookup n s.loaded = none)
    (hf : s.inFlight.find? (fun x => x.name == n) = none) :
    ∃ s1, loadPhaseA idx [u] s = .ok s1 ∧
      countLoadingFrom s1.log n = countLoadingFrom s.log n + 1 ∧
      (completeFail s1 n msg).loaded = s.loaded ∧
      List.lookup n (completeFail s1 n msg).loaded = none ∧
      (completeFail s1 n msg).inFlight.find? (fun x => x.name == n) = none ∧
      countEvent (completeFail s1 n msg).log (.loadError n msg) =
        countEvent s.log (.loadError n msg) + 1 ∧
      ∃ s3, loadPhaseA idx [rb] (completeFail s1 n msg) = .ok s3 ∧
        countLoadingFrom s3.log n = countLoadingFrom s.log n + 2 ∧
        List.lookup n (completeAllOk s3).loaded = some DEFAULT_CHANNEL := by
  have h1 : loadPhaseA idx [u] s = .ok
      { loaded := s.loaded, inFlight := s.inFlight ++ [⟨n, u, 1⟩],
        log := s.log ++ [.loadingFrom n (fetchUrl idx n u)] } := by
    rw [loadPhaseA_singleton idx u n u s hresU hexp,
        processEntry_fresh idx s n u hl hf]
  have hfind1 : (s.inFlight ++ [(⟨n, u, 1⟩ : InFlightEntry)]).find?
      (fun x => x.name == n) = some ⟨n, u, 1⟩ := by
    rw [List.find?_append, hf]
    simp [List.find?]
  have hcf : completeFail
      { loaded := s.loaded, inFlight := s.inFlight ++ [⟨n, u, 1⟩],
        log := s.log ++ [.loadingFrom n (fetchUrl idx n u)] } n msg =
      { loaded := s.loaded, inFlight := s.inFlight,
        log := (s.log ++ [.loadingFrom n (fetchUrl idx n u)]) ++
          [.loadError n msg] } := by
    simp only [completeFail, hfind1]
    rw [List.filter_append,
        filter_keep_of_ne s.inFlight n (find?_all_false _ _ hf)]
    simp
  refine ⟨_, h1, ?_, ?_, ?_, ?_, ?_, ?_⟩
  · show countLoadingFrom (s.log ++ [.loadingFrom n (fetchUrl idx n u)]) n =
      countLoadingFrom s.log n + 1
    rw [countLoadingFrom_append]
    simp [countLoadingFrom, List.filter]
  · rw [hcf]
  · rw [hcf]
    exact hl
  · rw [hcf]
    exact hf
  · rw [hcf]
    show countEvent ((s.log ++ [.loadingFrom n (fetchUrl idx n u)]) ++
      [.loadError n msg]) (.loadError n msg) =
      countEvent s.log (.loadError n msg) + 1
    rw [countEvent_append, countEvent_append]
    have hne : ((LogEvent.loadingFrom n (fetchUrl idx n u)) ==
        LogEvent.loadError n msg) = false :=
      beq_eq_false_iff_ne.mpr (by simp)
    simp [countEvent, List.filter, hne]
  · rw [hcf]
    have h3 : loadPhaseA idx [rb]
        { loaded := s.loaded, inFlight := s.inFlight,
          log := (s.log ++ [.loadingFrom n (fetchUrl idx n u)]) ++
            [.loadError n msg] } = .ok
        { loaded := s.loaded,
          inFlight := s.inFlight ++ [⟨n, DEFAULT_CHANNEL, 1⟩],
          log := ((s.log ++ [.loadingFrom n (fetchUrl idx n u)]) ++
            [.loadError n msg]) ++
            [.loadingFrom n (fetchUrl idx n DEFAULT_CHANNEL)] } := by
      rw [loadPhaseA_singleton idx rb n DEFAULT_CHANNEL _ hresB hexp,
          processEntry_fresh idx
            { loaded := s.loaded, inFlight := s.inFlight,
              log := (s.log ++ [.loadingFrom n (fetchUrl idx n u)]) ++
                [.loadError n msg] } n DEFAULT_CHANNEL hl hf]
    refine ⟨_, h3, ?_, ?_⟩
    · show countLoadingFrom
        (((s.log ++ [.loadingFrom n (fetchUrl idx n u)]) ++
          [.loadError n msg]) ++
          [.loadingFrom n (fetchUrl idx n DEFAULT_CHANNEL)]) n =
        countLoadingFrom s.log n + 2
      rw [countLoadingFrom_append, countLoadingFrom_append,
          countLoadingFrom_append]
      simp [countLoadingFrom, List.filter]
    · have hsh : (completeAllOk
          { loaded := s.loaded,
            inFlight := s.inFlight ++ [⟨n, DEFAULT_CHANNEL, 1⟩],
            log := ((s.log ++ [.loadingFrom n (fetchUrl idx n u)]) ++
              [.loadError n msg]) ++
              [.loadingFrom n (fetchUrl idx n DEFAULT_CHANNEL)] }).loaded =
          s.loaded ++ (s.inFlight.map (fun e => (e.name, e.channel)) ++
            [(n, DEFAULT_CHANNEL)]) := by
        simp [completeAllOk]
      rw [hsh]
      exact lookup_fresh_loaded n DEFAULT_CHANNEL s hl hf

/-- C2 witness: the scenario of `test_load_failure_retry`: `pytz` fails
from an invalid URL, the state reverts, and the bare-name retry succeeds
with a second fetch. -/
theorem failure_reverts_then_retry_succeeds_witness :
    ∃ s1, loadPhaseA pytzIdx ["http://invalidurl/pytz.js"] initState =
        .ok s1 ∧
      countLoadingFrom s1.log "pytz" =
        countLoadingFrom initState.log "pytz" + 1 ∧
      (completeFail s1 "pytz" "FetchError").loaded = initState.loaded ∧
      List.lookup "pytz" (completeFail s1 "pytz" "FetchError").loaded =
        none ∧
      (completeFail s1 "pytz" "FetchError").inFlight.find?
        (fun x => x.name == "pytz") = none ∧
      countEvent (completeFail s1 "pytz" "FetchError").log
          (.loadError "pytz" "FetchError") =
        countEvent initState.log (.loadError "pytz" "FetchError") + 1 ∧
      ∃ s3, loadPhaseA pytzIdx ["pytz"]
          (completeFail s1 "pytz" "FetchError") = .ok s3 ∧
        countLoadingFrom s3.log "pytz" =
          countLoadingFrom initState.log "pytz" + 2 ∧
        List.lookup "pytz" (completeAllOk s3).loaded =
          some DEFAULT_CHANNEL :=
  failure_reverts_then_retry_succeeds pytzIdx "http://invalidurl/pytz.js"
    "pytz" "pytz" "FetchError" initState (by decide) (by decide) (by decide)
    (by decide) (by decide)

/-- The cross-call conflict scenario: load `pytz` from one URL to
completion, then request the same name from a different URL in a second
call. -/
def crossCallConflict : Except String LoaderState :=
  (loadPackages pytzIdx ["https://foo/pytz.js"] initState).bind
    (fun s1 => loadPhaseA pytzIdx ["https://bar/pytz.js"] s1)

/-- C5 counterexample: the claim says requesting one canonical name from
two distinct non-default URIs in the same or different calls emits the
`Loading same package` line exactly once.  When the calls are different and
the first has already completed, the coordinator instead emits the
`URI mismatch` log and zero `Loading same package` lines. -/
theorem source_conflict_not_logged_after_completion :
    crossCallConflict.toOption.map (fun s2 =>
      (countLoadingSame s2.log "pytz",
       countEvent s2.log (.uriMismatch "pytz"))) = some (0, 1) ∧
    (0 : Nat) ≠ 1 := by decide

/-- C5 (amended): for a canonical name requested from two non-default
channel URIs X and Y, the `Loading same package <name> from X and Y` event
is emitted exactly once when X differs from Y and the two requests share
one batch, or the second arrives while the name is still in flight; it is
never emitted when X equals Y (an idempotent re-request); and when the
first load has already completed, the second request emits the
`URI mismatch` log instead and no `Loading same package` line. -/
theorem source_conflict_logged_once (idx : PackageIndex) (x y n : String)
    (s : LoaderState)
    (hresX : resolveRequest idx x = .ok (n, x))
    (hresY : resolveRequest idx y = .ok (n, y))
    (hexp : expand idx [n] = [n])
    (hl : List.lookup n s.loaded = none)
    (hf : s.inFlight.find? (fun e => e.name == n) = none) :
    (x ≠ y → ∃ s', loadPhaseA idx [x, y] s = .ok s' ∧
      countLoadingSame s'.log n = countLoadingSame s.log n + 1 ∧
      countEvent s'.log (.loadingSame n y x) =
        countEvent s.log (.loadingSame n y x) + 1) ∧
    (x = y → ∃ s', loadPhaseA idx [x, y] s = .ok s' ∧
      countLoadingSame s'.log n = countLoadingSame s.log n) ∧
    (x ≠ y → ∀ s1, loadPhaseA idx [x] s = .ok s1 →
      ∃ s2, loadPhaseA idx [y] s1 = .ok s2 ∧
        countLoadingSame s2.log n = countLoadingSame s.log n + 1) ∧
    (∀ (c : String) (t : LoaderState), List.lookup n t.loaded = some c →
      y ≠ c → y ≠ DEFAULT_CHANNEL →
      loadPhaseA idx [y] t =
        .ok { t with log := t.log ++ [.uriMismatch n] } ∧
      countLoadingSame (t.log ++ [.uriMismatch n]) n =
        countLoadingSame t.log n) := by
  refine ⟨?_, ?_, ?_, ?_⟩
  · intro hxy
    have hyx : ¬(y = x) := fun h => hxy h.symm
    have hrun : loadPhaseA idx [x, y] s = .ok
        { loaded := s.loaded, inFlight := s.inFlight ++ [⟨n, x, 1⟩],
          log := (s.log ++ [.loadingSame n y x]) ++
            [.loadingFrom n (fetchUrl idx n x)] } := by
      obtain ⟨ld, inf, lg⟩ := s
      simp only [LoaderState.loaded] at hl
      simp only [LoaderState.inFlight] at hf
      simp [loadPhaseA, resolveAll, hresX, hresY, bind, Except.bind,
        dedupeGo, List.lookup, closureEntries, hexp, hyx, processEntry,
        hl, hf]
    refine ⟨_, hrun, ?_, ?_⟩
    · show countLoadingSame ((s.log ++ [.loadingSame n y x]) ++
        [.loadingFrom n (fetchUrl idx n x)]) n =
        countLoadingSame s.log n + 1
      rw [countLoadingSame_append, countLoadingSame_append]
      simp [countLoadingSame, List.filter]
    · show countEvent ((s.log ++ [.loadingSame n y x]) ++
        [.loadingFrom n (fetchUrl idx n x)]) (.loadingSame n y x) =
        countEvent s.log (.loadingSame n y x) + 1
      rw [countEvent_append, countEvent_append]
      have hne : ((LogEvent.loadingFrom n (fetchUrl idx n x)) ==
          LogEvent.loadingSame n y x) = false :=
        beq_eq_false_iff_ne.mpr (by simp)
      simp [countEvent, List.filter, hne]
  · intro hxy
    subst hxy
    have hrun : loadPhaseA idx [x, x] s = .ok
        { loaded := s.loaded, inFlight := s.inFlight ++ [⟨n, x, 1⟩],
          log := s.log ++ [.loadingFrom n (fetchUrl idx n x)] } := by
      obtain ⟨ld, inf, lg⟩ := s
      simp only [LoaderState.loaded] at hl
      simp only [LoaderState.inFlight] at hf
      simp [loadPhaseA, resolveAll, hresX, bind, Except.bind,
        dedupeGo, List.lookup, closureEntries, hexp, processEntry, hl, hf]
    refine ⟨_, hrun, ?_⟩
    show countLoadingSame (s.log ++ [.loadingFrom n (fetchUrl idx n x)]) n =
      countLoadingSame s.log n
    rw [countLoadingSame_append]
    simp [countLoadingSame, List.filter]
  · intro hxy s1 hs1
    have hyx : ¬(y = x) := fun h => hxy h.symm
    have h1 : loadPhaseA idx [x] s = .ok
        { loaded := s.loaded, inFlight := s.inFlight ++ [⟨n, x, 1⟩],
          log := s.log ++ [.loadingFrom n (fetchUrl idx n x)] } := by
      rw [loadPhaseA_singleton idx x n x s hresX hexp,
          processEntry_fresh idx s n x hl hf]
    rw [hs1] at h1
    injection h1 with hse
    subst hse
    have hfind1 : (s.inFlight ++ [(⟨n, x, 1⟩ : InFlightEntry)]).find?
        (fun e => e.name == n) = some ⟨n, x, 1⟩ := by
      rw [List.find?_append, hf]
      simp [List.find?]
    have h2 : loadPhaseA idx [y]
        { loaded := s.loaded, inFlight := s.inFlight ++ [⟨n, x, 1⟩],
          log := s.log ++ [.loadingFrom n (fetchUrl idx n x)] } = .ok
        { loaded := s.loaded,
          inFlight := (s.inFlight ++ [(⟨n, x, 1⟩ : InFlightEntry)]).map
            (fun e => if e.name == n then
              { e with waiters := e.waiters + 1 } else e),
          log := (s.log ++ [.loadingFrom n (fetchUrl idx n x)]) ++
            [.loadingSame n y x] } := by
      rw [loadPhaseA_singleton idx y n y _ hresY hexp,
          processEntry_attach idx
            { loaded := s.loaded, inFlight := s.inFlight ++ [⟨n, x, 1⟩],
              log := s.log ++ [.loadingFrom n (fetchUrl idx n x)] }
            n y ⟨n, x, 1⟩ hl hfind1]
      rw [if_neg hyx]
    refine ⟨_, h2, ?_⟩
    show countLoadingSame ((s.log ++ [.loadingFrom n (fetchUrl idx n x)]) ++
      [.loadingSame n y x]) n = countLoadingSame s.log n + 1
    rw [countLoadingSame_append, countLoadingSame_append]
    simp [countLoadingSame, List.filter]
  · intro c t hlk hyc hyD
    constructor
    · rw [loadPhaseA_singleton idx y n y t hresY hexp,
          processEntry_mismatch idx t n y c hlk (fun h => h.elim hyc hyD)]
    · rw [countLoadingSame_append]
      simp [countLoadingSame, List.filter]

/-- C5 witness: the single-batch clause on the concrete scenario of
`test_load_twice_different_source`: two distinct URLs for `pytz` in one
batch produce exactly one conflict event, with the later URL listed
first. -/
theorem source_conflict_logged_once_witness :
    ∃ s', loadPhaseA pytzIdx
        ["https://foo/pytz.js", "https://bar/pytz.js"] initState = .ok s' ∧
      countLoadingSame s'.log "pytz" =
        countLoadingSame initState.log "pytz" + 1 ∧
      countEvent s'.log
          (.loadingSame "pytz" "https://bar/pytz.js" "https://foo/pytz.js") =
        countEvent initState.log
          (.loadingSame "pytz" "https://bar/pytz.js" "https://foo/pytz.js")
          + 1 :=
  (source_conflict_logged_once pytzIdx "https://foo/pytz.js"
    "https://bar/pytz.js" "pytz" initState (by decide) (by decide)
    (by decide) (by decide) (by decide)).1 (by decide)

theorem processEntry_joined (idx : PackageIndex) (n : String)
    (s : LoaderState) (w : Nat) (L : List LogEvent)
    (hl : List.lookup n s.loaded = none)
    (hf : s.inFlight.find? (fun x => x.name == n) = none) :
    processEntry idx
      { loaded := s.loaded,
        inFlight := s.inFlight ++ [⟨n, DEFAULT_CHANNEL, w⟩], log := L }
      n DEFAULT_CHANNEL =
      { loaded := s.loaded,
        inFlight := s.inFlight ++ [⟨n, DEFAULT_CHANNEL, w + 1⟩],
        log := L } := by
  have hfind : (s.inFlight ++
      [(⟨n, DEFAULT_CHANNEL, w⟩ : InFlightEntry)]).find?
      (fun x => x.name == n) = some ⟨n, DEFAULT_CHANNEL, w⟩ := by
    rw [List.find?_append, hf]
    simp [List.find?]
  rw [processEntry_attach idx
      { loaded := s.loaded,
        inFlight := s.inFlight ++ [⟨n, DEFAULT_CHANNEL, w⟩], log := L }
      n DEFAULT_CHANNEL ⟨n, DEFAULT_CHANNEL, w⟩ hl hfind]
  rw [if_pos rfl]
  dsimp only
  rw [List.map_append, bump_map_id s.inFlight n (find?_all_false _ _ hf)]
  simp

theorem loadCalls_joined (idx : PackageIndex) (r n : String)
    (s : LoaderState)
    (hres : resolveRequest idx r = .ok (n, DEFAULT_CHANNEL))
    (hexp : expand idx [n] = [n])
    (hl : List.lookup n s.loaded = none)
    (hf : s.inFlight.find? (fun x => x.name == n) = none) :
    ∀ (k w : Nat) (L : List LogEvent),
      loadCalls idx r k
        { loaded := s.loaded,
          inFlight := s.inFlight ++ [⟨n, DEFAULT_CHANNEL, w⟩], log := L } =
      .ok { loaded := s.loaded,
            inFlight := s.inFlight ++ [⟨n, DEFAULT_CHANNEL, w + k⟩],
            log := L } := by
  intro k
  induction k with
  | zero => intro w L; simp [loadCalls]
  | succ k ih =>
    intro w L
    rw [loadCalls]
    rw [loadPhaseA_singleton idx r n DEFAULT_CHANNEL _ hres hexp,
        processEntry_joined idx n s w L hl hf]
    show loadCalls idx r k
        { loaded := s.loaded,
          inFlight := s.inFlight ++ [⟨n, DEFAULT_CHANNEL, w + 1⟩],
          log := L } = _
    rw [ih (w + 1) L]
    have harith : w + 1 + k = w + (k + 1) := by omega
    rw [harith]

/-- C1: when several load calls request the same not-yet-loaded,
not-yet-in-flight name (issued back to back before any completion, the
shape of concurrent callers, or repeated within one batch), exactly one
fetch event `Loading <name> from ...` is produced, a single in-flight
attempt exists for the name carrying every caller as a waiter, every caller
receives the same outcome broadcast of that one attempt, and a duplicated
request inside one batch is deduplicated to the same admission. -/
theorem concurrent_requests_single_fetch (idx : PackageIndex) (r n : String)
    (s : LoaderState) (k : Nat)
    (hres : resolveRequest idx r = .ok (n, DEFAULT_CHANNEL))
    (hexp : expand idx [n] = [n])
    (hl : List.lookup n s.loaded = none)
    (hf : s.inFlight.find? (fun x => x.name == n) = none) :
    ∃ s', loadCalls idx r (k + 1) s = .ok s' ∧
      countLoadingFrom s'.log n = countLoadingFrom s.log n + 1 ∧
      s'.inFlight.filter (fun x => x.name == n) =
        [⟨n, DEFAULT_CHANNEL, k + 1⟩] ∧
      attemptOutcomes s' n true = List.replicate (k + 1) true ∧
      attemptOutcomes s' n false = List.replicate (k + 1) false ∧
      loadPhaseA idx [r, r] s = loadPhaseA idx [r] s := by
  have h1 : loadCalls idx r (k + 1) s = .ok
      { loaded := s.loaded,
        inFlight := s.inFlight ++ [⟨n, DEFAULT_CHANNEL, k + 1⟩],
        log := s.log ++ [.loadingFrom n (fetchUrl idx n DEFAULT_CHANNEL)] } := by
    rw [loadCalls]
    rw [loadPhaseA_singleton idx r n DEFAULT_CHANNEL s hres hexp,
        processEntry_fresh idx s n DEFAULT_CHANNEL hl hf]
    show loadCalls idx r k
        { loaded := s.loaded,
          inFlight := s.inFlight ++ [⟨n, DEFAULT_CHANNEL, 1⟩],
          log := s.log ++
            [LogEvent.loadingFrom n (fetchUrl idx n DEFAULT_CHANNEL)] } = _
    rw [loadCalls_joined idx r n s hres hexp hl hf k 1
        (s.log ++ [LogEvent.loadingFrom n (fetchUrl idx n DEFAULT_CHANNEL)])]
    have harith : 1 + k = k + 1 := by omega
    rw [harith]
  have hfilter0 : s.inFlight.filter (fun x => x.name == n) = [] := by
    rw [List.filter_eq_nil_iff]
    intro a ha
    simp [find?_all_false _ _ hf a ha]
  have hfind : (s.inFlight ++
      [(⟨n, DEFAULT_CHANNEL, k + 1⟩ : InFlightEntry)]).find?
      (fun x => x.name == n) = some ⟨n, DEFAULT_CHANNEL, k + 1⟩ := by
    rw [List.find?_append, hf]
    simp [List.find?]
  refine ⟨_, h1, ?_, ?_, ?_, ?_, ?_⟩
  · show countLoadingFrom (s.log ++
      [.loadingFrom n (fetchUrl idx n DEFAULT_CHANNEL)]) n =
      countLoadingFrom s.log n + 1
    rw [countLoadingFrom_append]
    simp [countLoadingFrom, List.filter]
  · show (s.inFlight ++
      [(⟨n, DEFAULT_CHANNEL, k + 1⟩ : InFlightEntry)]).filter
      (fun x => x.name == n) = [⟨n, DEFAULT_CHANNEL, k + 1⟩]
    rw [List.filter_append, hfilter0]
    simp [List.filter]
  · show attemptOutcomes
      { loaded := s.loaded,
        inFlight := s.inFlight ++ [⟨n, DEFAULT_CHANNEL, k + 1⟩],
        log := s.log ++
          [.loadingFrom n (fetchUrl idx n DEFAULT_CHANNEL)] } n true =
      List.replicate (k + 1) true
    simp only [attemptOutcomes, hfind]
  · show attemptOutcomes
      { loaded := s.loaded,
        inFlight := s.inFlight ++ [⟨n, DEFAULT_CHANNEL, k + 1⟩],
        log := s.log ++
          [.loadingFrom n (fetchUrl idx n DEFAULT_CHANNEL)] } n false =
      List.replicate (k + 1) false
    simp only [attemptOutcomes, hfind]
  · obtain ⟨ld, inf, lg⟩ := s
    simp [loadPhaseA, resolveAll, hres, bind, Except.bind, dedupeGo,
      List.lookup]

/-- C1 witness: two back-to-back admissions of `pytz` from the initial
state produce one fetch event, one attempt with two waiters, the same
broadcast outcome, and in-batch deduplication. -/
theorem concurrent_requests_single_fetch_witness :
    ∃ s', loadCalls pytzIdx "pytz" 2 initState = .ok s' ∧
      countLoadingFrom s'.log "pytz" =
        countLoadingFrom initState.log "pytz" + 1 ∧
      s'.inFlight.filter (fun x => x.name == "pytz") =
        [⟨"pytz", DEFAULT_CHANNEL, 2⟩] ∧
      attemptOutcomes s' "pytz" true = List.replicate 2 true ∧
      attemptOutcomes s' "pytz" false = List.replicate 2 false ∧
      loadPhaseA pytzIdx ["pytz", "pytz"] initState =
        loadPhaseA pytzIdx ["pytz"] initState :=
  concurrent_requests_single_fetch pytzIdx "pytz" "pytz" initState 1
    (by decide) (by decide) (by decide) (by decide)

theorem bump_name (n : String) (x : InFlightEntry) :
    (if x.name == n then
      { x with waiters := x.waiters + 1 } else x).name = x.name := by
  split <;> rfl

theorem inFlightNames_processEntry (idx : PackageIndex) (st : LoaderState)
    (n ch : String) :
    ∀ m, m ∈ inFlightNames st →
      m ∈ inFlightNames (processEntry idx st n ch) := by
  intro m hm
  cases hlk : List.lookup n st.loaded with
  | some c =>
    rcases Decidable.em (ch = c ∨ ch = DEFAULT_CHANNEL) with hch | hch
    · rw [processEntry_already idx st n ch c hlk hch]
      exact hm
    · rw [processEntry_mismatch idx st n ch c hlk hch]
      exact hm
  | none =>
    cases hfd : st.inFlight.find? (fun e => e.name == n) with
    | some e =>
      rw [processEntry_attach idx st n ch e hlk hfd]
      unfold inFlightNames at hm ⊢
      rcases List.mem_map.mp hm with ⟨e', he', hme⟩
      refine List.mem_map.mpr ⟨_, List.mem_map_of_mem _ he', ?_⟩
      rw [bump_name]
      exact hme
    | none =>
      rw [processEntry_fresh idx st n ch hlk hfd]
      unfold inFlightNames at hm ⊢
      simp only [List.map_append]
      exact List.mem_append_left _ hm

theorem processEntry_self (idx : PackageIndex) (st : LoaderState)
    (n ch : String) :
    n ∈ loadedNames st ∨ n ∈ inFlightNames (processEntry idx st n ch) := by
  cases hlk : List.lookup n st.loaded with
  | some c => exact Or.inl (lookup_some_mem n st.loaded c hlk)
  | none =>
    right
    cases hfd : st.inFlight.find? (fun e => e.name == n) with
    | some e =>
      rw [processEntry_attach idx st n ch e hlk hfd]
      have he := List.mem_of_find?_eq_some hfd
      have hn' : e.name = n := by
        have := List.find?_some hfd
        simpa using this
      unfold inFlightNames
      exact List.mem_map.mpr
        ⟨_, List.mem_map_of_mem _ he, by rw [bump_name, hn']⟩
    | none =>
      rw [processEntry_fresh idx st n ch hlk hfd]
      unfold inFlightNames
      simp

theorem fold_preserves (idx : PackageIndex)
    (entries : List (String × String)) :
    ∀ (st : LoaderState) (m : String),
      (m ∈ loadedNames st ∨ m ∈ inFlightNames st) →
      (m ∈ loadedNames (entries.foldl
          (fun t p => processEntry idx t p.1 p.2) st) ∨
       m ∈ inFlightNames (entries.foldl
          (fun t p => processEntry idx t p.1 p.2) st)) := by
  induction entries with
  | nil => intro st m h; exact h
  | cons p rest ih =>
    intro st m h
    simp only [List.foldl_cons]
    apply ih
    rcases h with h | h
    · left
      unfold loadedNames at h ⊢
      rw [loaded_processEntry]
      exact h
    · exact Or.inr (inFlightNames_processEntry idx st p.1 p.2 m h)

theorem fold_mem (idx : PackageIndex) (entries : List (String × String)) :
    ∀ (st : LoaderState) (p : String × String), p ∈ entries →
      (p.1 ∈ loadedNames (entries.foldl
          (fun t q => processEntry idx t q.1 q.2) st) ∨
       p.1 ∈ inFlightNames (entries.foldl
          (fun t q => processEntry idx t q.1 q.2) st)) := by
  induction entries with
  | nil => intro st p hp; cases hp
  | cons q rest ih =>
    intro st p hp
    simp only [List.foldl_cons]
    rcases List.mem_cons.mp hp with hpq | hp'
    · subst hpq
      apply fold_preserves idx rest
      rcases processEntry_self idx st p.1 p.2 with h | h
      · left
        unfold loadedNames at h ⊢
        rw [loaded_processEntry]
        exact h
      · exact Or.inr h
    · exact ih _ p hp'

theorem loadedNames_completeAllOk (s : LoaderState) :
    loadedNames (completeAllOk s) = loadedNames s ++ inFlightNames s := by
  unfold completeAllOk loadedNames inFlightNames
  simp [List.map_append, List.map_map]

/-- C4: for every request batch whose admission phase succeeds, the full
transitive dependency closure of the requested names is a subset of the
loaded set once every admitted unit completes; and a name already present
in the loaded mapping, loaded from its recorded channel, makes a subsequent
independent bare-name load of it a pure no-op: the call returns with only
the `already loaded` log appended and the loaded and in-flight state
untouched. -/
theorem dependency_closure_loaded (idx : PackageIndex) (reqs : List String)
    (s s1 : LoaderState) (hphase : loadPhaseA idx reqs s = .ok s1) :
    (∀ m ∈ batchClosure idx reqs, m ∈ loadedNames (completeAllOk s1)) ∧
    (∀ (b n c : String) (t : LoaderState),
      resolveRequest idx b = .ok (n, DEFAULT_CHANNEL) →
      expand idx [n] = [n] →
      List.lookup n t.loaded = some c →
      loadPhaseA idx [b] t =
        .ok { t with log := t.log ++ [.alreadyLoaded n c] }) := by
  constructor
  · intro m hm
    cases hres : resolveAll idx reqs with
    | error e =>
      rw [loadPhaseA] at hphase
      rw [hres] at hphase
      exact absurd hphase (by simp [bind, Except.bind])
    | ok resolved =>
      rcases hdd : dedupeGo [] [] resolved with ⟨uniq, clog⟩
      have hph : (closureEntries idx uniq).foldl
          (fun t p => processEntry idx t p.1 p.2)
          { s with log := s.log ++ clog } = s1 := by
        have h := hphase
        rw [loadPhaseA, hres] at h
        simp only [bind, Except.bind, hdd] at h
        exact (by injection h : _ = s1)
      have hm' : m ∈ expand idx (uniq.map Prod.fst) := by
        have h := hm
        unfold batchClosure at h
        simp only [hres] at h
        rw [hdd] at h
        exact h
      have hment : (m, (List.lookup m uniq).getD DEFAULT_CHANNEL) ∈
          closureEntries idx uniq := by
        unfold closureEntries
        exact List.mem_map_of_mem _ hm'
      have hmem := fold_mem idx (closureEntries idx uniq)
        { s with log := s.log ++ clog } _ hment
      rw [hph] at hmem
      rw [loadedNames_completeAllOk]
      rcases hmem with h | h
      · exact List.mem_append_left _ h
      · exact List.mem_append_right _ h
  · intro b n c t hresB hexpB hlk
    rw [loadPhaseA_singleton idx b n DEFAULT_CHANNEL t hresB hexpB,
        processEntry_already idx t n DEFAULT_CHANNEL c hlk (Or.inr rfl)]

/-- C4 witness: loading `a` (which depends on `b`) admits and loads both,
and the subsequent independent load of `b` alone is a no-op producing only
the `already loaded` log. -/
theorem dependency_closure_loaded_witness :
    ("b" ∈ loadedNames (completeAllOk
      { loaded := [],
        inFlight := [⟨"a", DEFAULT_CHANNEL, 1⟩, ⟨"b", DEFAULT_CHANNEL, 1⟩],
        log := [.loadingFrom "a" (fetchUrl abIdx "a" DEFAULT_CHANNEL),
                .loadingFrom "b" (fetchUrl abIdx "b" DEFAULT_CHANNEL)] })) ∧
    loadPhaseA abIdx ["b"] (completeAllOk
      { loaded := [],
        inFlight := [⟨"a", DEFAULT_CHANNEL, 1⟩, ⟨"b", DEFAULT_CHANNEL, 1⟩],
        log := [.loadingFrom "a" (fetchUrl abIdx "a" DEFAULT_CHANNEL),
                .loadingFrom "b" (fetchUrl abIdx "b" DEFAULT_CHANNEL)] }) =
      .ok { completeAllOk
        { loaded := [],
          inFlight := [⟨"a", DEFAULT_CHANNEL, 1⟩, ⟨"b", DEFAULT_CHANNEL, 1⟩],
          log := [.loadingFrom "a" (fetchUrl abIdx "a" DEFAULT_CHANNEL),
                  .loadingFrom "b" (fetchUrl abIdx "b" DEFAULT_CHANNEL)] }
        with log := (completeAllOk
          { loaded := [],
            inFlight := [⟨"a", DEFAULT_CHANNEL, 1⟩,
                         ⟨"b", DEFAULT_CHANNEL, 1⟩],
            log := [.loadingFrom "a" (fetchUrl abIdx "a" DEFAULT_CHANNEL),
                    .loadingFrom "b" (fetchUrl abIdx "b" DEFAULT_CHANNEL)] }).log
          ++ [.alreadyLoaded "b" DEFAULT_CHANNEL] } :=
  ⟨(dependency_closure_loaded abIdx ["a"] initState _ (by decide)).1
      "b" (by decide),
   (dependency_closure_loaded abIdx ["a"] initState
      { loaded := [],
        inFlight := [⟨"a", DEFAULT_CHANNEL, 1⟩, ⟨"b", DEFAULT_CHANNEL, 1⟩],
        log := [.loadingFrom "a" (fetchUrl abIdx "a" DEFAULT_CHANNEL),
                .loadingFrom "b" (fetchUrl abIdx "b" DEFAULT_CHANNEL)] }
      (by decide)).2 "b" "b" DEFAULT_CHANNEL _ (by decide) (by decide)
      (by decide)⟩

/-- C10: loading a package from an explicit URL fetches every resource of
that package (the loader script and the companion data archive) from the
server named in the URL: no resource targets any other server, and the
fetch URL the coordinator commits for an explicitly-channelled package is
the literal channel URL itself (never the default channel's location). -/
theorem url_load_fetches_only_named_server (u : Url) (other : String)
    (hother : other ≠ u.server) :
    ((packageResources u).filter (fun t => t.server == other)).length = 0 ∧
    (∀ t ∈ packageResources u, t.server = u.server) ∧
    (∀ (idx : PackageIndex) (n ch : String), ch ≠ DEFAULT_CHANNEL →
      fetchUrl idx n ch = ch) := by
  refine ⟨?_, ?_, ?_⟩
  · have hne : (u.server == other) = false :=
      beq_eq_false_iff_ne.mpr (fun e => hother e.symm)
    simp [packageResources, hne]
  · intro t ht
    rcases List.mem_cons.mp ht with h | h
    · rw [h]
    · rcases List.mem_cons.mp h with h2 | h2
      · rw [h2]
      · cases h2
  · intro idx n ch hch
    simp [fetchUrl, hch]

/-- C10 witness: a package loaded from the secondary server's URL sends
nothing to the main server, and the committed fetch URL is the request URL
itself. -/
theorem url_load_fetches_only_named_server_witness :
    ((packageResources ⟨"http://secondary:8001", "/pyparsing.js"⟩).filter
      (fun t => t.server == "http://main:8000")).length = 0 ∧
    (∀ t ∈ packageResources ⟨"http://secondary:8001", "/pyparsing.js"⟩,
      t.server = "http://secondary:8001") ∧
    (∀ (idx : PackageIndex) (n ch : String), ch ≠ DEFAULT_CHANNEL →
      fetchUrl idx n ch = ch) :=
  url_load_fetches_only_named_server
    ⟨"http://secondary:8001", "/pyparsing.js"⟩ "http://main:8000" (by decide)

end PackageLoader
